import Mathlib

/-!
Verification of the conversation-analysis core of the `convosol` repository
(`demo.py` / `streamlit_app.py`): the speaker-turn parser inside
`detect_speakers_ai` and the analyzer `analyze_text_with_speakers`.

Python strings are embedded as `List Char`; each Python string operation used
by the source (`str.lower`, `str.strip`, `str.split`, `in`-substring test,
`str.join`) is given an executable Lean counterpart with the same semantics.
Python's insertion-ordered `dict` is embedded as an association list.
The float expression `len(text.split()) / 150` formatted with `:.1f` is
embedded by exact rational rounding to one decimal place; the rational
`n / 150` is never a half-way tie at one decimal (`2 * n = 15 * odd` is
impossible), so round-to-nearest agrees with the float formatting at every
realistic magnitude.
-/

/-- A Python string, embedded as its list of characters. -/
abbrev Str := List Char

/-- Embedding of Python `str.lower()` (ASCII-faithful, as the lexicons are ASCII). -/
def pyLower (s : Str) : Str := s.map Char.toLower

/-- Drop leading whitespace, the first half of Python `str.strip()`. -/
def lstrip (s : Str) : Str := s.dropWhile Char.isWhitespace

/-- Drop trailing whitespace, the second half of Python `str.strip()`. -/
def rstrip (s : Str) : Str := (s.reverse.dropWhile Char.isWhitespace).reverse

/-- Embedding of Python `str.strip()`: trim whitespace at both ends. -/
def strip (s : Str) : Str := rstrip (lstrip s)

/-- `startsWithB n h` = the list `n` is an initial segment of `h`. -/
def startsWithB : Str → Str → Bool
  | [], _ => true
  | _ :: _, [] => false
  | n :: ns, h :: hs => n == h && startsWithB ns hs

/-- Embedding of Python `needle in hay`: contiguous-substring containment. -/
def substrB (needle : Str) : Str → Bool
  | [] => needle.isEmpty
  | h :: hs => startsWithB needle (h :: hs) || substrB needle hs

/-- Embedding of Python `s.split(sep)` for a one-character separator, generalised
to a character predicate: split at every matching character, dropping the
separators and keeping empty fragments (so it also serves, filtered of empties,
for the no-argument `s.split()`). -/
def pySplitP (p : Char → Bool) : Str → List Str
  | [] => [[]]
  | c :: cs =>
    if p c then [] :: pySplitP p cs
    else
      match pySplitP p cs with
      | [] => [[c]]
      | h :: t => (c :: h) :: t

/-- Embedding of Python `s.split(c)` for a single-character separator `c`. -/
def pySplitChar (c : Char) (s : Str) : List Str := pySplitP (fun x => x == c) s

/-- Embedding of Python no-argument `s.split()`: whitespace runs separate
tokens and no empty token is produced. -/
def wsSplit (s : Str) : List Str :=
  (pySplitP Char.isWhitespace s).filter (fun w => !w.isEmpty)

/-- Embedding of Python `s.split(c, 1)` restricted to the case used by the
source: `none` when `c` does not occur, otherwise the parts before and after
the FIRST occurrence of `c`. -/
def pySplitFirst (c : Char) : Str → Option (Str × Str)
  | [] => none
  | x :: xs =>
    if x = c then some ([], xs)
    else
      match pySplitFirst c xs with
      | none => none
      | some (l, r) => some (x :: l, r)

/-- Embedding of Python `sep.join(parts)` for a one-character separator. -/
def joinSp (parts : List Str) : Str := List.intercalate [' '] parts

/-- The `safety_keywords` lexicon of `analyze_text_with_speakers`. -/
def safety_keywords : List Str :=
  ["safety".toList, "hazard".toList, "risk".toList, "danger".toList,
   "accident".toList, "injury".toList, "ppe".toList, "protective".toList,
   "lockout".toList, "emergency".toList]

/-- The `quality_keywords` lexicon of `analyze_text_with_speakers`. -/
def quality_keywords : List Str :=
  ["defect".toList, "quality".toList, "inspection".toList, "tolerance".toList,
   "reject".toList, "standard".toList, "compliance".toList, "testing".toList,
   "specification".toList]

/-- The `production_keywords` lexicon of `analyze_text_with_speakers`. -/
def production_keywords : List Str :=
  ["production".toList, "schedule".toList, "deadline".toList, "capacity".toList,
   "manufacturing".toList, "assembly".toList, "efficiency".toList,
   "downtime".toList]

/-- Embedding of `sum(1 for word in keywords if word in text_lower)`:
the number of lexicon entries present as a substring of `textLower`. -/
def countKeywords (kws : List Str) (textLower : Str) : Nat :=
  (kws.filter (fun w => substrB w textLower)).length

/-- The speaker table built by the parsing loop of `detect_speakers_ai`: an
insertion-ordered association list from speaker label to the ordered list of
that speaker's utterances. -/
abbrev SpeakerTable := List (Str × List Str)

/-- One iteration's `speakers[speaker].append(text)` together with the
`if speaker not in speakers` registration: append `txt` to the entry of `spk`,
registering `spk` at the end (first-seen order) when absent. -/
def addUtterance : SpeakerTable → Str → Str → SpeakerTable
  | [], spk, txt => [(spk, [txt])]
  | (s, us) :: rest, spk, txt =>
    if s = spk then (s, us ++ [txt]) :: rest
    else (s, us) :: addUtterance rest spk txt

/-- One iteration of the `for line in lines` loop of `detect_speakers_ai`:
strip the line; if it contains a colon, split at the first colon, strip both
parts and record the utterance; otherwise leave the table unchanged. -/
def parseLine (tbl : SpeakerTable) (line : Str) : SpeakerTable :=
  match pySplitFirst ':' (strip line) with
  | none => tbl
  | some (speakerPart, textPart) => addUtterance tbl (strip speakerPart) (strip textPart)

/-- The whole parsing loop of `detect_speakers_ai`: split the formatted
conversation on newlines and fold `parseLine` over the lines. -/
def parseSpeakers (text : Str) : SpeakerTable :=
  (pySplitChar '\n' text).foldl parseLine []

/-- The dictionary returned by `detect_speakers_ai`. -/
structure SpeakerData where
  formatted_conversation : Str
  speakers : SpeakerTable
  speaker_count : Nat
deriving Repr, DecidableEq

/-- Embedding of `detect_speakers_ai`. The external model call is embedded as
`providerResponse : Option Str`: `some r` is a successful call whose reply
message content is `r` (the source then strips it and parses it), `none` is
the `except` branch, which substitutes the single-speaker fallback built from
the original `text`. -/
def detect_speakers_ai (text : Str) (providerResponse : Option Str) : SpeakerData :=
  match providerResponse with
  | some r =>
    let fc := strip r
    let speakers := parseSpeakers fc
    { formatted_conversation := fc
      speakers := speakers
      speaker_count := speakers.length }
  | none =>
    { formatted_conversation := "Speaker A: ".toList ++ text
      speakers := [("Speaker A".toList, [text])]
      speaker_count := 1 }

/-- One entry of the `speaker_analysis` dictionary of
`analyze_text_with_speakers`. -/
structure SpeakerStats where
  utterances : Nat
  words : Nat
  safety_mentions : Nat
  quality_mentions : Nat
  production_mentions : Nat
deriving Repr, DecidableEq

/-- The per-speaker statistics computed inside the
`for speaker, utterances in speaker_data["speakers"].items()` loop:
join the utterances with single spaces, lowercase, and measure. -/
def speakerStats (utterances : List Str) : SpeakerStats :=
  let speaker_text := pyLower (joinSp utterances)
  { utterances := utterances.length
    words := (wsSplit speaker_text).length
    safety_mentions := countKeywords safety_keywords speaker_text
    quality_mentions := countKeywords quality_keywords speaker_text
    production_mentions := countKeywords production_keywords speaker_text }

/-- Formatting of `f"{n / 150:.1f} minutes"` by exact rational rounding of
`n / 150` to one decimal place (never a half-way tie, see the header note). -/
def estDuration (n : Nat) : Str :=
  let d := (2 * n + 15) / 30
  (toString (d / 10)).toList ++ '.' :: (toString (d % 10)).toList ++ " minutes".toList

/-- The dictionary returned by `analyze_text_with_speakers`. -/
structure AnalysisReport where
  main_topic : Str
  safety_mentions : Nat
  quality_mentions : Nat
  production_mentions : Nat
  key_points : List Str
  word_count : Nat
  estimated_duration : Str
  speaker_analysis : List (Str × SpeakerStats)
  total_speakers : Nat
deriving Repr, DecidableEq

/-- The key-point extraction of `analyze_text_with_speakers`: split on periods,
strip each fragment, keep non-empty fragments longer than 10 characters, take
the first 5. -/
def keyPoints (text : Str) : List Str :=
  (((pySplitChar '.' text).map strip).filter
    (fun s => !s.isEmpty && Nat.blt 10 s.length)).take 5

/-- Embedding of `analyze_text_with_speakers`. -/
def analyze_text_with_speakers (text : Str) (speaker_data : SpeakerData) : AnalysisReport :=
  let text_lower := pyLower text
  let safety_count := countKeywords safety_keywords text_lower
  let quality_count := countKeywords quality_keywords text_lower
  let production_count := countKeywords production_keywords text_lower
  let main_topic :=
    if safety_count > quality_count ∧ safety_count > production_count then
      "Safety Discussion".toList
    else if quality_count > production_count then
      "Quality Control".toList
    else if production_count > 0 then
      "Production Planning".toList
    else
      "General Discussion".toList
  { main_topic := main_topic
    safety_mentions := safety_count
    quality_mentions := quality_count
    production_mentions := production_count
    key_points := keyPoints text
    word_count := (wsSplit text).length
    estimated_duration := estDuration (wsSplit text).length
    speaker_analysis := speaker_data.speakers.map (fun su => (su.1, speakerStats su.2))
    total_speakers := speaker_data.speaker_count }

/-- The pipeline of `main`: label speakers (with the degraded fallback on
provider failure), then analyze. -/
def runPipeline (transcript : Str) (providerResponse : Option Str) : AnalysisReport :=
  analyze_text_with_speakers transcript (detect_speakers_ai transcript providerResponse)

/-! ### Helper lemmas about the string primitives -/

/-- The labels of a speaker table, in insertion order. -/
def keys (tbl : SpeakerTable) : List Str := tbl.map Prod.fst

@[simp] lemma keys_nil : keys [] = [] := rfl

@[simp] lemma keys_cons (p : Str × List Str) (tbl : SpeakerTable) :
    keys (p :: tbl) = p.1 :: keys tbl := rfl

@[simp] lemma keys_append (t1 t2 : SpeakerTable) :
    keys (t1 ++ t2) = keys t1 ++ keys t2 := List.map_append _ _ _

lemma mem_lstrip {c : Char} {s : Str} (h : c ∈ lstrip s) : c ∈ s :=
  (List.dropWhile_sublist _).subset h

lemma mem_rstrip {c : Char} {s : Str} (h : c ∈ rstrip s) : c ∈ s := by
  unfold rstrip at h
  rw [List.mem_reverse] at h
  exact List.mem_reverse.mp ((List.dropWhile_sublist _).subset h)

lemma mem_strip {c : Char} {s : Str} (h : c ∈ strip s) : c ∈ s :=
  mem_lstrip (mem_rstrip h)

lemma pySplitFirst_eq_none {c : Char} {s : Str} (h : c ∉ s) : pySplitFirst c s = none := by
  induction s with
  | nil => rfl
  | cons x xs ih =>
    have hx : ¬ x = c := fun he => h (he ▸ List.mem_cons_self x xs)
    have hr := ih (fun hm => h (List.mem_cons_of_mem _ hm))
    simp [pySplitFirst, hx, hr]

lemma pySplitFirst_append {c : Char} {a b : Str} (h : c ∉ a) :
    pySplitFirst c (a ++ c :: b) = some (a, b) := by
  induction a with
  | nil => simp [pySplitFirst]
  | cons x xs ih =>
    have hx : ¬ x = c := fun he => h (he ▸ List.mem_cons_self x xs)
    have hr := ih (fun hm => h (List.mem_cons_of_mem _ hm))
    simp [pySplitFirst, hx, hr]

lemma parseLine_no_colon {tbl : SpeakerTable} {line : Str} (h : ':' ∉ line) :
    parseLine tbl line = tbl := by
  have h2 : ':' ∉ strip line := fun hm => h (mem_strip hm)
  simp [parseLine, pySplitFirst_eq_none h2]

lemma parseLine_colon {tbl : SpeakerTable} {line a b : Str}
    (hs : strip line = a ++ ':' :: b) (ha : ':' ∉ a) :
    parseLine tbl line = addUtterance tbl (strip a) (strip b) := by
  simp [parseLine, hs, pySplitFirst_append ha]

lemma addUtterance_not_mem {tbl : SpeakerTable} {spk : Str} (txt : Str)
    (h : spk ∉ keys tbl) : addUtterance tbl spk txt = tbl ++ [(spk, [txt])] := by
  induction tbl with
  | nil => rfl
  | cons p rest ih =>
    obtain ⟨s, us⟩ := p
    have hne : ¬ s = spk := by
      intro he
      exact h (by simp [he])
    have hr : spk ∉ keys rest := by
      intro hm
      exact h (by simp [hm])
    simp [addUtterance, hne, ih hr]

lemma addUtterance_mem_split {pre post : SpeakerTable} {spk : Str} {us : List Str} (txt : Str)
    (h : spk ∉ keys pre) :
    addUtterance (pre ++ (spk, us) :: post) spk txt = pre ++ (spk, us ++ [txt]) :: post := by
  induction pre with
  | nil => simp [addUtterance]
  | cons p rest ih =>
    obtain ⟨s, vs⟩ := p
    have hne : ¬ s = spk := by
      intro he
      exact h (by simp [he])
    have hr : spk ∉ keys rest := by
      intro hm
      exact h (by simp [hm])
    simp [addUtterance, hne, ih hr]

lemma keys_addUtterance (tbl : SpeakerTable) (spk txt : Str) :
    keys (addUtterance tbl spk txt) =
      if spk ∈ keys tbl then keys tbl else keys tbl ++ [spk] := by
  induction tbl with
  | nil => simp [addUtterance]
  | cons p rest ih =>
    obtain ⟨s, us⟩ := p
    by_cases hs : s = spk
    · subst hs
      simp [addUtterance]
    · by_cases hm : spk ∈ keys rest <;>
        simp [addUtterance, hs, ih, hm, Ne.symm hs]

lemma length_addUtterance_le (tbl : SpeakerTable) (spk txt : Str) :
    (addUtterance tbl spk txt).length ≤ tbl.length + 1 := by
  induction tbl with
  | nil => simp [addUtterance]
  | cons p rest ih =>
    obtain ⟨s, us⟩ := p
    by_cases hs : s = spk <;> simp [addUtterance, hs]
    exact ih

lemma addUtterance_vals_ne {tbl : SpeakerTable} (h : ∀ p ∈ tbl, p.2 ≠ []) (spk txt : Str) :
    ∀ p ∈ addUtterance tbl spk txt, p.2 ≠ [] := by
  induction tbl with
  | nil =>
    intro p hp
    simp [addUtterance] at hp
    subst hp
    simp
  | cons q rest ih =>
    obtain ⟨s, us⟩ := q
    intro p hp
    by_cases hs : s = spk
    · subst hs
      simp [addUtterance] at hp
      rcases hp with rfl | hp
      · simp
      · exact h p (List.mem_cons_of_mem _ hp)
    · simp only [addUtterance, if_neg hs, List.mem_cons] at hp
      rcases hp with rfl | hp
      · exact h (s, us) (List.mem_cons_self _ _)
      · exact ih (fun q hq => h q (List.mem_cons_of_mem _ hq)) p hp

lemma parseLine_vals_ne {tbl : SpeakerTable} {line : Str} (h : ∀ p ∈ tbl, p.2 ≠ []) :
    ∀ p ∈ parseLine tbl line, p.2 ≠ [] := by
  unfold parseLine
  split
  · exact h
  · exact addUtterance_vals_ne h _ _

lemma parseLine_keys_nodup {tbl : SpeakerTable} {line : Str} (h : (keys tbl).Nodup) :
    (keys (parseLine tbl line)).Nodup := by
  unfold parseLine
  split
  · exact h
  · rw [keys_addUtterance]
    split
    · exact h
    · rename_i hm
      simp [List.nodup_append, h, hm]

lemma length_parseLine_le (tbl : SpeakerTable) (line : Str) :
    (parseLine tbl line).length ≤ tbl.length + 1 := by
  unfold parseLine
  split
  · omega
  · exact length_addUtterance_le _ _ _

lemma foldl_parseLine_vals_ne (lines : List Str) :
    ∀ tbl : SpeakerTable, (∀ p ∈ tbl, p.2 ≠ []) →
      ∀ p ∈ lines.foldl parseLine tbl, p.2 ≠ [] := by
  induction lines with
  | nil => intro tbl h; exact h
  | cons l ls ih => intro tbl h; exact ih _ (parseLine_vals_ne h)

lemma foldl_parseLine_keys_nodup (lines : List Str) :
    ∀ tbl : SpeakerTable, (keys tbl).Nodup →
      (keys (lines.foldl parseLine tbl)).Nodup := by
  induction lines with
  | nil => intro tbl h; exact h
  | cons l ls ih => intro tbl h; exact ih _ (parseLine_keys_nodup h)

lemma foldl_parseLine_length (lines : List Str) :
    ∀ tbl : SpeakerTable,
      (lines.foldl parseLine tbl).length ≤
        tbl.length + (lines.filter (fun l => decide (':' ∈ l))).length := by
  induction lines with
  | nil => intro tbl; simp
  | cons l ls ih =>
    intro tbl
    rw [List.foldl_cons, List.filter_cons]
    by_cases hc : ':' ∈ l
    · have h1 := ih (parseLine tbl l)
      have h2 := length_parseLine_le tbl l
      simp only [hc]
      simp only [decide_eq_true_eq, if_pos trivial, List.length_cons]
      omega
    · rw [parseLine_no_colon hc]
      have h1 := ih tbl
      simp only [hc]
      simp only [decide_eq_true_eq, if_neg (fun h : False => h.elim), List.length_cons]
      omega

lemma rstrip_eq_nil_iff {s : Str} :
    rstrip s = [] ↔ ∀ c ∈ s, Char.isWhitespace c = true := by
  unfold rstrip
  rw [List.reverse_eq_nil_iff, List.dropWhile_eq_nil_iff]
  simp [List.mem_reverse]

lemma rstrip_cons_of_neg {x : Char} (hx : Char.isWhitespace x = false) (s : Str) :
    rstrip (x :: s) = x :: rstrip s := by
  unfold rstrip
  rw [List.reverse_cons, List.dropWhile_append]
  cases he : List.dropWhile Char.isWhitespace s.reverse with
  | nil => simp [List.dropWhile_cons, hx]
  | cons a as => simp

lemma rstrip_cons_of_ne_nil {x : Char} {xs : Str} (h : rstrip xs ≠ []) :
    rstrip (x :: xs) = x :: rstrip xs := by
  unfold rstrip at h ⊢
  rw [List.reverse_cons, List.dropWhile_append]
  cases he : List.dropWhile Char.isWhitespace xs.reverse with
  | nil => exact absurd (by rw [he, List.reverse_nil]) h
  | cons a as => simp

lemma lstrip_cons_pos {x : Char} (hx : Char.isWhitespace x = true) (s : Str) :
    lstrip (x :: s) = lstrip s := by
  simp [lstrip, List.dropWhile_cons, hx]

lemma lstrip_cons_neg {x : Char} (hx : Char.isWhitespace x = false) (s : Str) :
    lstrip (x :: s) = x :: s := by
  simp [lstrip, List.dropWhile_cons, hx]

lemma lstrip_rstrip_comm (s : Str) : lstrip (rstrip s) = rstrip (lstrip s) := by
  induction s with
  | nil => rfl
  | cons x xs ih =>
    by_cases hx : Char.isWhitespace x
    · rw [lstrip_cons_pos hx]
      by_cases hr : rstrip xs = []
      · have hall := rstrip_eq_nil_iff.mp hr
        have h1 : rstrip (x :: xs) = [] := by
          rw [rstrip_eq_nil_iff]
          intro c hc
          rcases List.mem_cons.mp hc with rfl | hm
          · exact hx
          · exact hall c hm
        have h2 : rstrip (lstrip xs) = [] := by
          rw [rstrip_eq_nil_iff]
          intro c hc
          exact hall c (mem_lstrip hc)
        rw [h1, h2]
        rfl
      · rw [rstrip_cons_of_ne_nil hr]
        have hx2 : Char.isWhitespace x = true := hx
        rw [lstrip_cons_pos hx2, ih]
    · have hx2 : Char.isWhitespace x = false := by
        simp [hx]
      rw [rstrip_cons_of_neg hx2, lstrip_cons_neg hx2, lstrip_cons_neg hx2,
        rstrip_cons_of_neg hx2]

lemma rstrip_idem (s : Str) : rstrip (rstrip s) = rstrip s := by
  unfold rstrip
  rw [List.reverse_reverse, List.dropWhile_idempotent]

lemma lstrip_idem (s : Str) : lstrip (lstrip s) = lstrip s := by
  unfold lstrip
  rw [List.dropWhile_idempotent]

lemma strip_rstrip (s : Str) : strip (rstrip s) = strip s := by
  unfold strip
  rw [lstrip_rstrip_comm, rstrip_idem]

lemma strip_idem (s : Str) : strip (strip s) = strip s := by
  unfold strip
  rw [lstrip_rstrip_comm (lstrip s), rstrip_idem, lstrip_idem]

lemma pySplitP_ne_nil (p : Char → Bool) (s : Str) : pySplitP p s ≠ [] := by
  cases s with
  | nil => simp [pySplitP]
  | cons c cs =>
    by_cases hc : p c
    · simp [pySplitP, hc]
    · cases hr : pySplitP p cs <;> simp [pySplitP, hc, hr]

lemma mem_pySplitP {p : Char → Bool} {s : Str} :
    ∀ w ∈ pySplitP p s, ∀ c ∈ w, p c = false := by
  induction s with
  | nil =>
    intro w hw c hc
    simp [pySplitP] at hw
    subst hw
    simp at hc
  | cons x xs ih =>
    intro w hw c hc
    by_cases hx : p x
    · simp only [pySplitP, if_pos hx, List.mem_cons] at hw
      rcases hw with rfl | hw
      · simp at hc
      · exact ih w hw c hc
    · cases hr : pySplitP p xs with
      | nil => exact absurd hr (pySplitP_ne_nil p xs)
      | cons h t =>
        simp only [pySplitP, if_neg hx, hr, List.mem_cons] at hw
        rcases hw with rfl | hw
        · rcases List.mem_cons.mp hc with rfl | hcm
          · simp [hx]
          · exact ih h (hr ▸ List.mem_cons_self _ _) c hcm
        · exact ih w (hr ▸ List.mem_cons_of_mem _ hw) c hc

lemma strip_ws_colon {ws rest : Str} (h : ∀ c ∈ ws, Char.isWhitespace c = true) :
    strip (ws ++ ':' :: rest) = ':' :: rstrip rest := by
  unfold strip
  have h1 : lstrip (ws ++ ':' :: rest) = ':' :: rest := by
    induction ws with
    | nil => exact lstrip_cons_neg (by decide) rest
    | cons c cs ih =>
      have hc := h c (List.mem_cons_self _ _)
      rw [List.cons_append, lstrip_cons_pos hc]
      exact ih (fun d hd => h d (List.mem_cons_of_mem _ hd))
  rw [h1, rstrip_cons_of_neg (by decide)]

lemma parseLine_ws_colon {tbl : SpeakerTable} {ws rest : Str}
    (h : ∀ c ∈ ws, Char.isWhitespace c = true) :
    parseLine tbl (ws ++ ':' :: rest) = addUtterance tbl [] (strip rest) := by
  have h1 : pySplitFirst ':' (strip (ws ++ ':' :: rest)) = some ([], rstrip rest) := by
    rw [strip_ws_colon h]
    simp [pySplitFirst]
  unfold parseLine
  rw [h1]
  show addUtterance tbl (strip []) (strip (rstrip rest)) = _
  rw [strip_rstrip]
  rfl

/-- The fragments of the transcript that qualify as key points, before the
`[:5]` truncation: period-split fragments, stripped, non-empty and longer
than 10 characters. -/
def qualFragments (text : Str) : List Str :=
  (((pySplitChar '.' text).map strip).filter
    (fun s => !s.isEmpty && Nat.blt 10 s.length))

lemma countKeywords_eq_card {kws : List Str} (h : kws.Nodup) (tl : Str) :
    countKeywords kws tl = (kws.toFinset.filter (fun w => substrB w tl = true)).card := by
  unfold countKeywords
  rw [← List.toFinset_filter]
  exact (List.toFinset_card_of_nodup (h.filter _)).symm

/-! ### The claims -/

/-- C1: the dominant topic label is chosen by the exact precedence
safety-strictly-greatest → "Safety Discussion", else quality > production →
"Quality Control", else production > 0 → "Production Planning", else
"General Discussion"; in particular counts (2, 2, 0) give "Quality Control". -/
theorem C1_dominant_topic_precedence (t : Str) (sd : SpeakerData) :
    ((analyze_text_with_speakers t sd).main_topic =
      if (analyze_text_with_speakers t sd).safety_mentions >
           (analyze_text_with_speakers t sd).quality_mentions ∧
         (analyze_text_with_speakers t sd).safety_mentions >
           (analyze_text_with_speakers t sd).production_mentions then
        "Safety Discussion".toList
      else if (analyze_text_with_speakers t sd).quality_mentions >
           (analyze_text_with_speakers t sd).production_mentions then
        "Quality Control".toList
      else if (analyze_text_with_speakers t sd).production_mentions > 0 then
        "Production Planning".toList
      else "General Discussion".toList) ∧
    ((analyze_text_with_speakers t sd).safety_mentions = 2 →
     (analyze_text_with_speakers t sd).quality_mentions = 2 →
     (analyze_text_with_speakers t sd).production_mentions = 0 →
     (analyze_text_with_speakers t sd).main_topic = "Quality Control".toList) := by
  refine ⟨rfl, ?_⟩
  intro h1 h2 h3
  have h0 : (analyze_text_with_speakers t sd).main_topic =
      if (analyze_text_with_speakers t sd).safety_mentions >
           (analyze_text_with_speakers t sd).quality_mentions ∧
         (analyze_text_with_speakers t sd).safety_mentions >
           (analyze_text_with_speakers t sd).production_mentions then
        "Safety Discussion".toList
      else if (analyze_text_with_speakers t sd).quality_mentions >
           (analyze_text_with_speakers t sd).production_mentions then
        "Quality Control".toList
      else if (analyze_text_with_speakers t sd).production_mentions > 0 then
        "Production Planning".toList
      else "General Discussion".toList := rfl
  rw [h0, h1, h2, h3]
  decide

/-- C1 witness: a transcript with exactly 2 safety keywords, 2 quality
keywords and 0 production keywords is classified "Quality Control". -/
theorem C1_dominant_topic_witness :
    (analyze_text_with_speakers ("safety hazard defect quality".toList)
        (detect_speakers_ai [] none)).main_topic = "Quality Control".toList :=
  (C1_dominant_topic_precedence ("safety hazard defect quality".toList)
      (detect_speakers_ai [] none)).2 rfl rfl rfl

/-- C2: each of the three topic counts equals the number of DISTINCT lexicon
entries occurring as a substring of the lowercased transcript; the lexicons
are duplicate-free; a keyword repeated many times still contributes 1, and a
keyword occurring inside a larger word (here "risk" inside "asterisks")
counts. -/
theorem C2_distinct_keyword_presence (t : Str) (sd : SpeakerData) :
    ((analyze_text_with_speakers t sd).safety_mentions =
        (safety_keywords.toFinset.filter (fun w => substrB w (pyLower t) = true)).card ∧
     (analyze_text_with_speakers t sd).quality_mentions =
        (quality_keywords.toFinset.filter (fun w => substrB w (pyLower t) = true)).card ∧
     (analyze_text_with_speakers t sd).production_mentions =
        (production_keywords.toFinset.filter (fun w => substrB w (pyLower t) = true)).card) ∧
    (safety_keywords.Nodup ∧ quality_keywords.Nodup ∧ production_keywords.Nodup) ∧
    countKeywords safety_keywords ("risk risk risk".toList) = 1 ∧
    countKeywords safety_keywords ("no asterisks here".toList) = 1 := by
  refine ⟨⟨?_, ?_, ?_⟩, ⟨by decide, by decide, by decide⟩, rfl, rfl⟩
  · exact countKeywords_eq_card (by decide) (pyLower t)
  · exact countKeywords_eq_card (by decide) (pyLower t)
  · exact countKeywords_eq_card (by decide) (pyLower t)

/-- C3: the parser handles each line as follows: a line with no colon leaves
the table unchanged; a line whose stripped form splits at the FIRST colon
into label and content records the trimmed content under the trimmed label;
a fresh label is registered at the end (first-seen order) with the content as
its one-element list; a repeated label appends to its existing entry without
creating a duplicate key; the empty input yields the empty table with
speaker_count 0; and speaker_count is the number of distinct registered
labels (the key list has no duplicates and speaker_count is its length). -/
theorem C3_parser_line_behavior :
    (∀ (tbl : SpeakerTable) (line : Str), ':' ∉ line → parseLine tbl line = tbl) ∧
    (∀ (tbl : SpeakerTable) (line a b : Str), strip line = a ++ ':' :: b → ':' ∉ a →
        parseLine tbl line = addUtterance tbl (strip a) (strip b)) ∧
    (∀ (tbl : SpeakerTable) (spk txt : Str), spk ∉ keys tbl →
        addUtterance tbl spk txt = tbl ++ [(spk, [txt])]) ∧
    (∀ (pre post : SpeakerTable) (spk : Str) (us : List Str) (txt : Str), spk ∉ keys pre →
        addUtterance (pre ++ (spk, us) :: post) spk txt = pre ++ (spk, us ++ [txt]) :: post) ∧
    ((detect_speakers_ai [] (some [])).speakers = [] ∧
     (detect_speakers_ai [] (some [])).speaker_count = 0) ∧
    (∀ (text r : Str),
        (keys (detect_speakers_ai text (some r)).speakers).Nodup ∧
        (detect_speakers_ai text (some r)).speaker_count =
          (detect_speakers_ai text (some r)).speakers.length) := by
  refine ⟨fun tbl line h => parseLine_no_colon h,
          fun tbl line a b hs ha => parseLine_colon hs ha,
          fun tbl spk txt h => addUtterance_not_mem txt h,
          fun pre post spk us txt h => addUtterance_mem_split txt h,
          ⟨rfl, rfl⟩,
          fun text r => ⟨?_, rfl⟩⟩
  show (keys ((pySplitChar '\n' (strip r)).foldl parseLine [])).Nodup
  exact foldl_parseLine_keys_nodup _ [] (by simp)

/-- C3 witness: the line rules applied at concrete inputs — a no-colon line is
ignored, a line is split at its first colon, a fresh label is registered, and
a repeated label appends to the existing entry. -/
theorem C3_parser_line_behavior_witness :
    parseLine [("A".toList, ["x".toList])] "no colon here".toList =
      [("A".toList, ["x".toList])] ∧
    parseLine [] "Speaker A: hi: there".toList =
      addUtterance [] (strip "Speaker A".toList) (strip " hi: there".toList) ∧
    addUtterance [] "B".toList "y".toList = [("B".toList, ["y".toList])] ∧
    addUtterance [("B".toList, ["y".toList])] "B".toList "z".toList =
      [("B".toList, ["y".toList, "z".toList])] := by
  refine ⟨C3_parser_line_behavior.1 _ _ (by decide),
          C3_parser_line_behavior.2.1 _ _ "Speaker A".toList " hi: there".toList
            (by decide) (by decide),
          ?_, ?_⟩
  · have h := C3_parser_line_behavior.2.2.1 [] "B".toList "y".toList (by decide)
    simpa using h
  · have h := C3_parser_line_behavior.2.2.2.1 [] [] "B".toList ["y".toList] "z".toList
      (by decide)
    simpa using h

/-- C4 counterexample: on the single-line input of the claim the parser splits
only at the FIRST colon of the one line, so the whole remainder becomes one
utterance of "Speaker A" and speaker_count is 1, not 2 as the claim states. -/
theorem C4_single_line_counterexample :
    (detect_speakers_ai []
        (some "Speaker A: We need PPE and safety training. Speaker B: Agreed, schedule it.".toList)).speakers =
      [("Speaker A".toList,
        ["We need PPE and safety training. Speaker B: Agreed, schedule it.".toList])] ∧
    (detect_speakers_ai []
        (some "Speaker A: We need PPE and safety training. Speaker B: Agreed, schedule it.".toList)).speaker_count = 1 ∧
    ¬ ((detect_speakers_ai []
        (some "Speaker A: We need PPE and safety training. Speaker B: Agreed, schedule it.".toList)).speaker_count = 2) := by
  exact ⟨rfl, rfl, by decide⟩

/-- C4 amended: the single-line input yields a single speaker "Speaker A"
holding everything after the first colon; the claimed two-speaker table is
produced when the two turns are separated by a newline. -/
theorem C4_two_turn_parse :
    (detect_speakers_ai []
        (some "Speaker A: We need PPE and safety training.\nSpeaker B: Agreed, schedule it.".toList)).speakers =
      [("Speaker A".toList, ["We need PPE and safety training.".toList]),
       ("Speaker B".toList, ["Agreed, schedule it.".toList])] ∧
    (detect_speakers_ai []
        (some "Speaker A: We need PPE and safety training.\nSpeaker B: Agreed, schedule it.".toList)).speaker_count = 2 := by
  exact ⟨rfl, rfl⟩

/-- C5: when the Speaker-Labeling Provider fails, `detect_speakers_ai`
substitutes the table with exactly one speaker "Speaker A" whose utterance
list is the single whole transcript, reports speaker_count 1, and the
analysis still runs to completion on the substituted table instead of
propagating the failure. -/
theorem C5_provider_failure_fallback (t : Str) :
    detect_speakers_ai t none =
      { formatted_conversation := "Speaker A: ".toList ++ t
        speakers := [("Speaker A".toList, [t])]
        speaker_count := 1 } ∧
    (runPipeline t none).total_speakers = 1 ∧
    (runPipeline t none).speaker_analysis = [("Speaker A".toList, speakerStats [t])] ∧
    runPipeline t none = analyze_text_with_speakers t (detect_speakers_ai t none) := by
  exact ⟨rfl, rfl, rfl, rfl⟩

/-- C6: the key points are the period-split fragments of the transcript,
stripped, kept when non-empty and longer than 10 characters, truncated to the
first 5 in original order; at least 5 qualifying fragments give exactly 5 key
points, and every key point is already stripped and contains no period. -/
theorem C6_key_point_extraction (t : Str) (sd : SpeakerData) :
    ((analyze_text_with_speakers t sd).key_points = (qualFragments t).take 5) ∧
    (qualFragments t =
      ((pySplitChar '.' t).map strip).filter
        (fun s => !s.isEmpty && Nat.blt 10 s.length)) ∧
    ((analyze_text_with_speakers t sd).key_points.length =
      min 5 (qualFragments t).length) ∧
    (5 ≤ (qualFragments t).length →
      (analyze_text_with_speakers t sd).key_points.length = 5) ∧
    (∀ kp ∈ (analyze_text_with_speakers t sd).key_points, strip kp = kp ∧ '.' ∉ kp) := by
  have hlen : (analyze_text_with_speakers t sd).key_points.length =
      min 5 (qualFragments t).length := by
    show ((qualFragments t).take 5).length = min 5 (qualFragments t).length
    simp [List.length_take]
  refine ⟨rfl, rfl, hlen, ?_, ?_⟩
  · intro h5
    rw [hlen]
    exact Nat.min_eq_left h5
  · intro kp hkp
    have h1 : kp ∈ (qualFragments t).take 5 := hkp
    have h2 : kp ∈ qualFragments t := (List.take_sublist 5 _).subset h1
    obtain ⟨hmap, _⟩ := List.mem_filter.mp h2
    obtain ⟨frag, hfrag, rfl⟩ := List.mem_map.mp hmap
    refine ⟨strip_idem frag, ?_⟩
    intro hc
    have hm : '.' ∈ frag := mem_strip hc
    have hf := mem_pySplitP frag hfrag '.' hm
    simp at hf

/-- C6 witness: a transcript with 7 qualifying sentences yields exactly 5 key
points, and the first key point is stripped and period-free. -/
theorem C6_key_point_extraction_witness :
    (analyze_text_with_speakers
        ("One sentence here. Two tiny. Three sentence here.  Four sentence here. Five sentence here. Six sentence here. Seven sentence here. Eight sentence here.".toList)
        (detect_speakers_ai [] none)).key_points.length = 5 ∧
    (strip "One sentence here".toList = "One sentence here".toList ∧
     '.' ∉ "One sentence here".toList) :=
  ⟨(C6_key_point_extraction
      ("One sentence here. Two tiny. Three sentence here.  Four sentence here. Five sentence here. Six sentence here. Seven sentence here. Eight sentence here.".toList)
      (detect_speakers_ai [] none)).2.2.2.1 (by decide),
   (C6_key_point_extraction
      ("One sentence here. Two tiny. Three sentence here.  Four sentence here. Five sentence here. Six sentence here. Seven sentence here. Eight sentence here.".toList)
      (detect_speakers_ai [] none)).2.2.2.2 "One sentence here".toList (by decide)⟩

/-- C7: the report's word_count is the whitespace-split token count of the
full transcript, independent of the speaker table, and the estimated duration
is that count divided by 150 formatted to one decimal place with the suffix
" minutes". -/
theorem C7_word_count_and_duration (t : Str) (sd : SpeakerData) :
    (analyze_text_with_speakers t sd).word_count = (wsSplit t).length ∧
    wsSplit t = (pySplitP Char.isWhitespace t).filter (fun w => !w.isEmpty) ∧
    (analyze_text_with_speakers t sd).estimated_duration =
      estDuration (analyze_text_with_speakers t sd).word_count := by
  exact ⟨rfl, rfl, rfl⟩

/-- C8: the per-speaker statistics iterate the speaker table in insertion
order; each speaker's stats join that speaker's utterances with single
spaces, lowercase, and record the utterance count, whitespace-split word
count, and the three lexicon presence counts computed by the same
`countKeywords` rule as the global counts, scoped to the concatenation. -/
theorem C8_per_speaker_statistics (t : Str) (sd : SpeakerData) :
    (analyze_text_with_speakers t sd).speaker_analysis =
      sd.speakers.map (fun su => (su.1, speakerStats su.2)) ∧
    ∀ utts : List Str,
      speakerStats utts =
        { utterances := utts.length
          words := (wsSplit (pyLower (joinSp utts))).length
          safety_mentions := countKeywords safety_keywords (pyLower (joinSp utts))
          quality_mentions := countKeywords quality_keywords (pyLower (joinSp utts))
          production_mentions := countKeywords production_keywords (pyLower (joinSp utts)) } := by
  exact ⟨rfl, fun _ => rfl⟩

/-- C9: in every table the parser produces, every registered speaker's
utterance list is non-empty, and speaker_count never exceeds the number of
colon-containing lines of the parsed text. -/
theorem C9_parser_invariant_nonempty :
    (∀ (text r : Str) (p : Str × List Str),
        p ∈ (detect_speakers_ai text (some r)).speakers → p.2 ≠ []) ∧
    (∀ (text r : Str),
        (detect_speakers_ai text (some r)).speaker_count ≤
          ((pySplitChar '\n' (strip r)).filter (fun l => decide (':' ∈ l))).length) := by
  constructor
  · intro text r p hp
    exact foldl_parseLine_vals_ne _ [] (by simp) p hp
  · intro text r
    show ((pySplitChar '\n' (strip r)).foldl parseLine []).length ≤ _
    have h := foldl_parseLine_length (pySplitChar '\n' (strip r)) []
    simpa using h

/-- C9 witness: for the parsed text "A: hi" the registered speaker's list is
non-empty and the speaker count is bounded by the colon-line count. -/
theorem C9_parser_invariant_witness :
    ("A".toList, ["hi".toList]).2 ≠ [] ∧
    (detect_speakers_ai [] (some "A: hi".toList)).speaker_count ≤
      ((pySplitChar '\n' (strip "A: hi".toList)).filter (fun l => decide (':' ∈ l))).length :=
  ⟨C9_parser_invariant_nonempty.1 [] "A: hi".toList ("A".toList, ["hi".toList]) (by decide),
   C9_parser_invariant_nonempty.2 [] "A: hi".toList⟩

/-- C10: a line whose first colon is preceded only by whitespace is not
rejected: it records under the empty-string label the stripped remainder of
the line; concretely ": hello" registers the empty label as a distinct
speaker, and ":" alone appends an empty content string to the empty-label
speaker's list. -/
theorem C10_empty_label_line :
    (∀ (tbl : SpeakerTable) (ws rest : Str), (∀ c ∈ ws, Char.isWhitespace c = true) →
        parseLine tbl (ws ++ ':' :: rest) = addUtterance tbl [] (strip rest)) ∧
    (detect_speakers_ai [] (some ": hello\nA: hi".toList)).speakers =
      [(([] : Str), ["hello".toList]), ("A".toList, ["hi".toList])] ∧
    (detect_speakers_ai [] (some ": hello\nA: hi".toList)).speaker_count = 2 ∧
    (detect_speakers_ai [] (some ":".toList)).speakers =
      [(([] : Str), ([[]] : List Str))] := by
  exact ⟨fun tbl ws rest h => parseLine_ws_colon h, rfl, rfl, rfl⟩

/-- C10 witness: the whitespace-then-colon rule applied at a concrete line. -/
theorem C10_empty_label_line_witness :
    parseLine [] ("  ".toList ++ ':' :: "x y".toList) =
      addUtterance [] [] (strip "x y".toList) :=
  C10_empty_label_line.1 [] "  ".toList "x y".toList (by decide)
